import Mathlib

set_option maxHeartbeats 1000000

/-!
Verification of the caret core of the rim editor (`src/caret.rs`).

The caret tracks a buffer position `(line, column)` together with an optional
remembered screen column, and is mutated through a single operation `adjust`.
Two pure functions translate between buffer columns (character indices) and
screen columns (cumulative display-cell widths).
-/

/-- Modelled from the spec: a character as the caret core observes it.  The
buffer collaborator (spec §6) supplies character sequences; the caret core
inspects a character only through equality with the line terminator and
through its optional display width (absent for characters with no printable
width, e.g. control characters — in particular the terminator itself has no
printable width). -/
inductive Ch where
  | newline : Ch
  | glyph : Option Nat → Ch
deriving DecidableEq

/-- Modelled from the spec: the per-character display-width capability of
spec §6 (`c.width(false)` in caret.rs): an optional width, absent for
characters with no printable width. -/
def Ch.width : Ch → Option Nat
  | Ch.newline => none
  | Ch.glyph w => w

/-- Whether a character is the line terminator (Rust `c == '\n'`). -/
def Ch.isNL : Ch → Bool
  | Ch.newline => true
  | Ch.glyph _ => false

/-- Modelled from the spec: the buffer collaborator of spec §6 — a sequence
of lines, each line being the finite character sequence yielded by the line
accessor (including any trailing line terminator). -/
structure Buffer where
  lines : List (List Ch)
deriving DecidableEq

/-- Modelled from the spec: `num_lines() -> integer`, the total number of
lines. -/
def Buffer.num_lines (b : Buffer) : Nat := b.lines.length

/-- Modelled from the spec: `line_length(line) -> optional integer`, the
character count of the given line, absent when the line is out of range. -/
def Buffer.line_length (b : Buffer) (line : Nat) : Option Nat :=
  (b.lines.get? line).map List.length

/-- Modelled from the spec: the line character sequence accessor
(`buffer.line_iter().from(line).next()` in caret.rs): the characters of the
given line, or absence when the line index is out of range. -/
def Buffer.line_chars (b : Buffer) (line : Nat) : Option (List Ch) :=
  b.lines.get? line

/-- caret.rs `c.width(false).unwrap_or(0)`: the display width with absent
widths treated as 0. -/
def cellWidth (c : Ch) : Nat := (Ch.width c).getD 0

/-- caret.rs `Adjustment`: the closed set of caret move requests. -/
inductive Adjustment where
  | LineUp : Adjustment
  | LineDown : Adjustment
  | CharNext : Adjustment
  | CharPrev : Adjustment
  | Set : Nat → Nat → Adjustment
deriving DecidableEq

/-- caret.rs `Caret`: the caret is in buffer coordinates, while the saved
column is in screen cell coordinates. -/
structure Caret where
  line : Nat
  column : Nat
  saved_column : Option Nat
deriving DecidableEq

/-- caret.rs `buffer_to_screen_column`: sums up the widths of the characters
before the given buffer column; `0` when the line does not exist
(`unwrap_or(0)`).  Note `max (0, x - 1)`-style Rust isize arithmetic is plain
truncated subtraction on `Nat`. -/
def buffer_to_screen_column (line column : Nat) (buffer : Buffer) : Nat :=
  ((buffer.line_chars line).map (fun chars =>
    ((chars.take column).map cellWidth).sum)).getD 0

/-- Rust `scan(0, |sum, c| { *sum += width; Some(*sum) })`: the running
cumulative widths, one entry per character, each entry being the state after
adding that character's width to the accumulator `acc`. -/
def scanSums (acc : Nat) : List Ch → List Nat
  | [] => []
  | c :: rest => (acc + cellWidth c) :: scanSums (acc + cellWidth c) rest

/-- caret.rs `screen_to_buffer_column`: scans the line (terminator characters
filtered out), counting characters while the running width stays within the
given screen column; `none` when the line does not exist. -/
def screen_to_buffer_column (row screen_column : Nat) (buffer : Buffer) :
    Option Nat :=
  (buffer.line_chars row).map (fun chars =>
    ((scanSums 0 (chars.filter (fun c => !c.isNL))).takeWhile
      (fun s => decide (s ≤ screen_column))).length)

/-- caret.rs `vertical_caret_movement`: helper to `adjust`, restricts the
caret column to valid character positions in screen space.  The two Rust
`unwrap`s on buffer queries are modelled as `Option` propagation: `none`
models the panic that aborts the operation. -/
def vertical_caret_movement (c : Caret) (from_line to_line : Nat)
    (buffer : Buffer) : Option (Nat × Nat × Option Nat) :=
  (buffer.line_length to_line).bind (fun to_line_length =>
    let to_line_screen_length :=
      buffer_to_screen_column to_line to_line_length buffer
    let max_column := to_line_screen_length - 1
    let desired_column :=
      c.saved_column.getD (buffer_to_screen_column from_line c.column buffer)
    let screen_column := min max_column desired_column
    (screen_to_buffer_column to_line screen_column buffer).map
      (fun buffer_column =>
        (to_line, buffer_column,
          if buffer_column = desired_column then none
          else some desired_column)))

/-- The `(new_line, new_column, new_saved_column)` triple computed by the
`match adjustment` expression inside caret.rs `adjust`, before any caret
field is written.  `none` models a panicking `unwrap` on a buffer query. -/
def adjustTriple (c : Caret) (adjustment : Adjustment) (buffer : Buffer) :
    Option (Nat × Nat × Option Nat) :=
  match adjustment with
  | Adjustment.CharPrev => some (c.line, c.column - 1, none)
  | Adjustment.CharNext =>
      (buffer.line_length c.line).map (fun line_length =>
        (c.line, min (line_length - 1) (c.column + 1), none))
  | Adjustment.LineUp =>
      if c.line = 0 then some (c.line, c.column, c.saved_column)
      else vertical_caret_movement c c.line (c.line - 1) buffer
  | Adjustment.LineDown =>
      if c.line = buffer.num_lines - 1 then some (c.line, c.column, c.saved_column)
      else vertical_caret_movement c c.line (c.line + 1) buffer
  | Adjustment.Set line column => some (line, column, none)

/-- The guarded write at the end of caret.rs `adjust`: all three fields are
written in one step when the new position differs from the old one, and
nothing is written otherwise. -/
def commitCaret (c : Caret) (t : Nat × Nat × Option Nat) : Caret :=
  if c.line ≠ t.1 ∨ c.column ≠ t.2.1 then ⟨t.1, t.2.1, t.2.2⟩ else c

/-- caret.rs `adjust`: compute the new position triple, then commit it.
`none` models the panic of an `unwrap` on a failed buffer query (the caret
fields are untouched in that case, as the commit never ran). -/
def adjust (c : Caret) (adjustment : Adjustment) (buffer : Buffer) :
    Option Caret :=
  (adjustTriple c adjustment buffer).map (commitCaret c)

/-- Spec §4.1 step 1, in the spec's words: the desired screen column is the
saved column when present, otherwise the screen column of the current buffer
position on the caret's line. -/
def specDesired (buf : Buffer) (c : Caret) : Nat :=
  c.saved_column.getD (buffer_to_screen_column c.line c.column buf)

/-- Spec §4.1 step 2, in the spec's words: the total screen width of all
characters on a line (`screen_length`). -/
def specScreenLength (buf : Buffer) (line : Nat) : Nat :=
  (((buf.lines.get? line).getD []).map cellWidth).sum

/-- Spec §4.1 step 3, in the spec's words: the clamped target screen column
`min (desired_column, max (0, screen_length to_line - 1))`. -/
def specTarget (buf : Buffer) (c : Caret) (to_line : Nat) : Nat :=
  min (specDesired buf c) (specScreenLength buf to_line - 1)

/-- Cumulative screen width of the first `column` characters of a line. -/
def sumW (chars : List Ch) (column : Nat) : Nat :=
  ((chars.take column).map cellWidth).sum

/-- Recursive form of the scan / takeWhile / count pipeline of
`screen_to_buffer_column`: counts leading characters whose running width
(started at `acc`) stays within `sc`. -/
def countFit (sc acc : Nat) : List Ch → Nat
  | [] => 0
  | c :: rest =>
      if acc + cellWidth c ≤ sc then countFit sc (acc + cellWidth c) rest + 1
      else 0

theorem scanSums_takeWhile (sc : Nat) :
    ∀ (l : List Ch) (acc : Nat),
      ((scanSums acc l).takeWhile (fun s => decide (s ≤ sc))).length =
        countFit sc acc l := by
  intro l
  induction l with
  | nil => intro acc; simp [scanSums, countFit]
  | cons c rest ih =>
      intro acc
      by_cases h : acc + cellWidth c ≤ sc
      · simp [scanSums, countFit, List.takeWhile_cons, h, ih]
      · simp [scanSums, countFit, List.takeWhile_cons, h]

theorem line_chars_none (buf : Buffer) (line : Nat)
    (h : buf.num_lines ≤ line) : buf.line_chars line = none := by
  show buf.lines.get? line = none
  exact List.get?_eq_none.mpr h

theorem line_chars_of_lt (buf : Buffer) (line : Nat)
    (h : line < buf.num_lines) :
    buf.line_chars line = some (buf.lines.get ⟨line, h⟩) := by
  show buf.lines.get? line = some (buf.lines.get ⟨line, h⟩)
  exact List.get?_eq_get h

theorem line_length_some (buf : Buffer) (line : Nat) (chars : List Ch)
    (hc : buf.line_chars line = some chars) :
    buf.line_length line = some chars.length := by
  simp only [Buffer.line_chars] at hc
  show (buf.lines.get? line).map List.length = some chars.length
  rw [hc]
  rfl

theorem line_chars_lt (buf : Buffer) (line : Nat) (chars : List Ch)
    (hc : buf.line_chars line = some chars) : line < buf.num_lines := by
  simp only [Buffer.line_chars] at hc
  by_contra h
  rw [List.get?_eq_none.mpr (Nat.le_of_not_lt h)] at hc
  cases hc

theorem b2s_some (buf : Buffer) (line col : Nat) (chars : List Ch)
    (hc : buf.line_chars line = some chars) :
    buffer_to_screen_column line col buf = sumW chars col := by
  simp [buffer_to_screen_column, hc, sumW]

theorem b2s_none (buf : Buffer) (line col : Nat)
    (hc : buf.line_chars line = none) :
    buffer_to_screen_column line col buf = 0 := by
  simp [buffer_to_screen_column, hc]

theorem s2b_some (buf : Buffer) (row sc : Nat) (chars : List Ch)
    (hc : buf.line_chars row = some chars) :
    screen_to_buffer_column row sc buf =
      some (countFit sc 0 (chars.filter (fun c => !c.isNL))) := by
  simp [screen_to_buffer_column, hc, scanSums_takeWhile]

theorem s2b_none (buf : Buffer) (row sc : Nat)
    (hc : buf.line_chars row = none) :
    screen_to_buffer_column row sc buf = none := by
  simp [screen_to_buffer_column, hc]

theorem specScreenLength_eq (buf : Buffer) (line : Nat) (chars : List Ch)
    (hc : buf.line_chars line = some chars) :
    specScreenLength buf line = sumW chars chars.length := by
  simp only [Buffer.line_chars] at hc
  show (((buf.lines.get? line).getD []).map cellWidth).sum = sumW chars chars.length
  rw [hc]
  simp [sumW, List.take_length]

theorem cellWidth_of_width (ch : Ch) (w : Nat) (h : ch.width = some w) :
    cellWidth ch = w := by
  simp [cellWidth, h]

theorem isNL_false_of_width (ch : Ch) (w : Nat) (h : ch.width = some w) :
    ch.isNL = false := by
  cases ch with
  | newline => simp [Ch.width] at h
  | glyph a => rfl

theorem countFit_le_length (sc : Nat) :
    ∀ (l : List Ch) (acc : Nat), countFit sc acc l ≤ l.length := by
  intro l
  induction l with
  | nil => intro acc; simp [countFit]
  | cons c rest ih =>
      intro acc
      by_cases h : acc + cellWidth c ≤ sc
      · simp only [countFit, if_pos h, List.length_cons]
        exact Nat.add_le_add_right (ih _) 1
      · simp only [countFit, if_neg h, List.length_cons]
        exact Nat.zero_le _

theorem countFit_mono (sc₁ sc₂ : Nat) (hsc : sc₁ ≤ sc₂) :
    ∀ (l : List Ch) (acc : Nat), countFit sc₁ acc l ≤ countFit sc₂ acc l := by
  intro l
  induction l with
  | nil => intro acc; simp [countFit]
  | cons c rest ih =>
      intro acc
      by_cases h : acc + cellWidth c ≤ sc₁
      · have h2 : acc + cellWidth c ≤ sc₂ := Nat.le_trans h hsc
        simp only [countFit, if_pos h, if_pos h2]
        exact Nat.add_le_add_right (ih _) 1
      · simp only [countFit, if_neg h]
        exact Nat.zero_le _

theorem sumW_mono (c₁ c₂ : Nat) (hc : c₁ ≤ c₂) :
    ∀ chars : List Ch, sumW chars c₁ ≤ sumW chars c₂ := by
  induction c₁ generalizing c₂ with
  | zero => intro chars; simp [sumW]
  | succ k ih =>
      intro chars
      cases c₂ with
      | zero => cases hc
      | succ m =>
          cases chars with
          | nil => simp [sumW]
          | cons ch rest =>
              simp only [sumW, List.take_succ_cons, List.map_cons, List.sum_cons]
              exact Nat.add_le_add_left (ih m (Nat.le_of_succ_le_succ hc) rest) _

theorem sumW_of_width1 :
    ∀ (chars : List Ch) (c : Nat), c ≤ chars.length →
      (∀ ch ∈ chars.take c, ch.width = some 1) → sumW chars c = c := by
  intro chars
  induction chars with
  | nil =>
      intro c hc _
      have : c = 0 := Nat.le_zero.mp hc
      simp [this, sumW]
  | cons ch rest ih =>
      intro c hc hw
      cases c with
      | zero => simp [sumW]
      | succ k =>
          have hch : ch.width = some 1 := by
            apply hw; simp [List.take_succ_cons]
          have hrest : ∀ x ∈ rest.take k, x.width = some 1 := by
            intro x hx
            apply hw
            simp [List.take_succ_cons, hx]
          have ihk := ih k (Nat.le_of_succ_le_succ hc) hrest
          simp only [sumW, List.take_succ_cons, List.map_cons, List.sum_cons]
            at ihk ⊢
          rw [cellWidth_of_width ch 1 hch]
          omega

theorem countFit_of_width1 :
    ∀ (chars : List Ch) (c acc : Nat), c ≤ chars.length →
      (∀ ch ∈ chars.take (c + 1), ch.width = some 1) →
      countFit (acc + c) acc (chars.filter (fun x => !x.isNL)) = c := by
  intro chars
  induction chars with
  | nil =>
      intro c acc hc _
      have : c = 0 := Nat.le_zero.mp hc
      simp [this, countFit]
  | cons ch rest ih =>
      intro c acc hc hw
      have hch : ch.width = some 1 := by
        apply hw; simp [List.take_succ_cons]
      have hnl : ch.isNL = false := isNL_false_of_width ch 1 hch
      have hw1 : cellWidth ch = 1 := cellWidth_of_width ch 1 hch
      have hfil : (ch :: rest).filter (fun x => !x.isNL) =
          ch :: rest.filter (fun x => !x.isNL) := by
        simp [List.filter_cons, hnl]
      cases c with
      | zero =>
          rw [hfil]
          simp only [countFit, hw1]
          rw [if_neg (by omega)]
      | succ k =>
          have hrest : ∀ x ∈ rest.take (k + 1), x.width = some 1 := by
            intro x hx
            apply hw
            simp [List.take_succ_cons, hx]
          rw [hfil]
          simp only [countFit, hw1]
          rw [if_pos (by omega)]
          have heq : acc + (k + 1) = (acc + 1) + k := by omega
          rw [heq, ih k (acc + 1) (Nat.le_of_succ_le_succ hc) hrest]

theorem countFit_wide :
    ∀ (chars : List Ch) (i acc sc : Nat) (hi : i < chars.length),
      cellWidth (chars.get ⟨i, hi⟩) = 2 →
      (∀ ch ∈ chars.take (i + 1), ch.isNL = false) →
      acc + sumW chars i ≤ sc → sc < acc + sumW chars i + 2 →
      countFit sc acc (chars.filter (fun x => !x.isNL)) = i := by
  intro chars
  induction chars with
  | nil => intro i acc sc hi; cases hi
  | cons ch rest ih =>
      intro i acc sc hi hw hnl hlo hhi
      cases i with
      | zero =>
          have hch : ch.isNL = false := by
            apply hnl; simp [List.take_succ_cons]
          have hfil : (ch :: rest).filter (fun x => !x.isNL) =
              ch :: rest.filter (fun x => !x.isNL) := by
            simp [List.filter_cons, hch]
          have hw0 : cellWidth ch = 2 := hw
          simp only [sumW, List.take_zero, List.map_nil, List.sum_nil,
            Nat.add_zero] at hlo hhi
          rw [hfil]
          simp only [countFit, hw0]
          rw [if_neg (by omega)]
      | succ k =>
          have hch : ch.isNL = false := by
            apply hnl; simp [List.take_succ_cons]
          have hfil : (ch :: rest).filter (fun x => !x.isNL) =
              ch :: rest.filter (fun x => !x.isNL) := by
            simp [List.filter_cons, hch]
          have hnl2 : ∀ x ∈ rest.take (k + 1), x.isNL = false := by
            intro x hx; apply hnl; simp [List.take_succ_cons, hx]
          have hsum : sumW (ch :: rest) (k + 1) = cellWidth ch + sumW rest k := by
            simp [sumW, List.take_succ_cons]
          rw [hsum] at hlo hhi
          have hstep : acc + cellWidth ch ≤ sc := by omega
          rw [hfil]
          simp only [countFit]
          rw [if_pos hstep]
          have := ih k (acc + cellWidth ch) sc (Nat.lt_of_succ_lt_succ hi)
            hw hnl2 (by omega) (by omega)
          rw [this]

theorem sum_widths_of_filter_nil :
    ∀ l : List Ch, l.filter (fun x => !x.isNL) = [] →
      (l.map cellWidth).sum = 0 := by
  intro l
  induction l with
  | nil => intro _; rfl
  | cons c rest ih =>
      intro h
      cases hnl : c.isNL with
      | false => simp [List.filter_cons, hnl] at h
      | true =>
          have hc0 : cellWidth c = 0 := by
            cases c with
            | newline => rfl
            | glyph a => simp [Ch.isNL] at hnl
          rw [List.filter_cons, hnl] at h
          simp only [Bool.not_true, cond_false] at h
          simp [hc0, ih h]

/-- Computation of `vertical_caret_movement` on an existing destination line:
the code's clamped screen column coincides with the spec-side `specTarget`
for the caret's own line as origin, and the landing column is `countFit`
over the destination's terminator-free characters. -/
theorem vertical_eq (buf : Buffer) (c : Caret) (to_line : Nat)
    (chars : List Ch) (hc : buf.line_chars to_line = some chars) :
    vertical_caret_movement c c.line to_line buf =
      some (to_line,
        countFit (specTarget buf c to_line) 0
          (chars.filter (fun x => !x.isNL)),
        if countFit (specTarget buf c to_line) 0
            (chars.filter (fun x => !x.isNL)) = specDesired buf c
        then none else some (specDesired buf c)) := by
  rw [vertical_caret_movement, line_length_some buf to_line chars hc]
  simp only [Option.some_bind]
  rw [b2s_some buf to_line chars.length chars hc]
  have hdes : c.saved_column.getD (buffer_to_screen_column c.line c.column buf)
      = specDesired buf c := rfl
  have htarget : min (sumW chars chars.length - 1) (specDesired buf c) =
      specTarget buf c to_line := by
    rw [specTarget, specScreenLength_eq buf to_line chars hc, Nat.min_comm]
  rw [hdes, htarget, s2b_some buf to_line (specTarget buf c to_line) chars hc]
  rfl

/-- `adjust` on `LineUp` away from line 0, with the destination line
present: the caret moves and all three fields are written. -/
theorem adjust_LineUp_eq (buf : Buffer) (c : Caret) (chars : List Ch)
    (h0 : c.line ≠ 0) (hc : buf.line_chars (c.line - 1) = some chars) :
    adjust c Adjustment.LineUp buf =
      some ⟨c.line - 1,
        countFit (specTarget buf c (c.line - 1)) 0
          (chars.filter (fun x => !x.isNL)),
        if countFit (specTarget buf c (c.line - 1)) 0
            (chars.filter (fun x => !x.isNL)) = specDesired buf c
        then none else some (specDesired buf c)⟩ := by
  have hne : c.line ≠ c.line - 1 := by omega
  rw [adjust]
  simp only [adjustTriple, if_neg h0]
  rw [vertical_eq buf c (c.line - 1) chars hc]
  simp only [Option.map_some']
  simp [commitCaret, hne]

/-- `adjust` on `LineDown` away from the last line, with the destination
line present. -/
theorem adjust_LineDown_eq (buf : Buffer) (c : Caret) (chars : List Ch)
    (h0 : c.line ≠ buf.num_lines - 1)
    (hc : buf.line_chars (c.line + 1) = some chars) :
    adjust c Adjustment.LineDown buf =
      some ⟨c.line + 1,
        countFit (specTarget buf c (c.line + 1)) 0
          (chars.filter (fun x => !x.isNL)),
        if countFit (specTarget buf c (c.line + 1)) 0
            (chars.filter (fun x => !x.isNL)) = specDesired buf c
        then none else some (specDesired buf c)⟩ := by
  have hne : c.line ≠ c.line + 1 := by omega
  rw [adjust]
  simp only [adjustTriple, if_neg h0]
  rw [vertical_eq buf c (c.line + 1) chars hc]
  simp only [Option.map_some']
  simp [commitCaret, hne]

/-- `LineUp` at line 0 is a no-op leaving every field as it was. -/
theorem adjust_LineUp_zero (buf : Buffer) (c : Caret) (h0 : c.line = 0) :
    adjust c Adjustment.LineUp buf = some c := by
  rw [adjust]
  simp only [adjustTriple, if_pos h0, Option.map_some']
  simp [commitCaret]

/-- `LineDown` at the last line is a no-op leaving every field as it was. -/
theorem adjust_LineDown_last (buf : Buffer) (c : Caret)
    (h0 : c.line = buf.num_lines - 1) :
    adjust c Adjustment.LineDown buf = some c := by
  rw [adjust]
  simp only [adjustTriple, if_pos h0, Option.map_some']
  simp [commitCaret]

/-- `adjust` on `CharPrev` never consults the buffer. -/
theorem adjust_CharPrev_eq (buf : Buffer) (c : Caret) :
    adjust c Adjustment.CharPrev buf =
      some (commitCaret c (c.line, c.column - 1, none)) := by
  rfl

/-- `adjust` on `CharNext` with the caret's line present. -/
theorem adjust_CharNext_eq (buf : Buffer) (c : Caret) (chars : List Ch)
    (hc : buf.line_chars c.line = some chars) :
    adjust c Adjustment.CharNext buf =
      some (commitCaret c
        (c.line, min (chars.length - 1) (c.column + 1), none)) := by
  rw [adjust]
  simp only [adjustTriple]
  rw [line_length_some buf c.line chars hc]
  rfl

/-- `adjust` on `Set` never consults the buffer. -/
theorem adjust_Set_eq (buf : Buffer) (c : Caret) (l col : Nat) :
    adjust c (Adjustment.Set l col) buf =
      some (commitCaret c (l, col, none)) := by
  rfl

/-- A width-1 printable character, for concrete instances. -/
def gch : Ch := Ch.glyph (some 1)

/-- A double-width (two-cell) character, for concrete instances. -/
def wch : Ch := Ch.glyph (some 2)

/-- Three-line demonstration buffer: lines of 2, 1 and 3 width-1
characters. -/
def demoBuf : Buffer := ⟨[[gch, gch], [gch], [gch, gch, gch]]⟩

/-- C1: for every caret whose position is valid for the buffer, `adjust`
with `LineUp` from a line > 0 (resp. `LineDown` from a line before the
last) moves to the adjacent line and computes the new buffer column as
`screen_to_buffer_column to_line target`, where
`target = min (desired, max (0, screen_length to_line - 1))`,
`desired = saved_column` when present, otherwise the screen column of the
current buffer position, and `screen_length` is the total screen width of
all characters on the destination line (`specTarget` spells this out). -/
theorem C1_vertical_movement_formula (buf : Buffer) (c : Caret) (ll : Nat)
    (hline : c.line < buf.num_lines)
    (hlen : buf.line_length c.line = some ll) (hcol : c.column ≤ ll) :
    (0 < c.line →
      (adjust c Adjustment.LineUp buf).map Caret.line = some (c.line - 1) ∧
      (adjust c Adjustment.LineUp buf).map Caret.column =
        screen_to_buffer_column (c.line - 1)
          (specTarget buf c (c.line - 1)) buf) ∧
    (c.line + 1 < buf.num_lines →
      (adjust c Adjustment.LineDown buf).map Caret.line = some (c.line + 1) ∧
      (adjust c Adjustment.LineDown buf).map Caret.column =
        screen_to_buffer_column (c.line + 1)
          (specTarget buf c (c.line + 1)) buf) := by
  constructor
  · intro hup
    have hlt : c.line - 1 < buf.num_lines := by omega
    have hc := line_chars_of_lt buf (c.line - 1) hlt
    rw [adjust_LineUp_eq buf c _ (by omega) hc]
    refine ⟨rfl, ?_⟩
    rw [s2b_some buf _ _ _ hc]
    rfl
  · intro hdown
    have hc := line_chars_of_lt buf (c.line + 1) hdown
    rw [adjust_LineDown_eq buf c _ (by omega) hc]
    refine ⟨rfl, ?_⟩
    rw [s2b_some buf _ _ _ hc]
    rfl

theorem C1_vertical_movement_formula_witness :
    ((adjust ⟨1, 1, none⟩ Adjustment.LineUp demoBuf).map Caret.line =
        some 0 ∧
      (adjust ⟨1, 1, none⟩ Adjustment.LineUp demoBuf).map Caret.column =
        screen_to_buffer_column 0
          (specTarget demoBuf ⟨1, 1, none⟩ 0) demoBuf) ∧
    ((adjust ⟨1, 1, none⟩ Adjustment.LineDown demoBuf).map Caret.line =
        some 2 ∧
      (adjust ⟨1, 1, none⟩ Adjustment.LineDown demoBuf).map Caret.column =
        screen_to_buffer_column 2
          (specTarget demoBuf ⟨1, 1, none⟩ 2) demoBuf) := by
  have h := C1_vertical_movement_formula demoBuf ⟨1, 1, none⟩ 1
    (by decide) (by decide) (by decide)
  exact ⟨h.1 (by decide), h.2 (by decide)⟩

/-- C2: after a vertical move, the new saved column is `none` when the
resulting buffer-space column equals the screen-space desired column, and
`some desired` otherwise — the comparison mixes the two units exactly as
the code does. -/
theorem C2_saved_column_rule (buf : Buffer) (c : Caret) (ll : Nat)
    (hline : c.line < buf.num_lines)
    (hlen : buf.line_length c.line = some ll) (hcol : c.column ≤ ll) :
    (0 < c.line → ∀ c', adjust c Adjustment.LineUp buf = some c' →
      c'.saved_column =
        if c'.column = specDesired buf c then none
        else some (specDesired buf c)) ∧
    (c.line + 1 < buf.num_lines →
      ∀ c', adjust c Adjustment.LineDown buf = some c' →
      c'.saved_column =
        if c'.column = specDesired buf c then none
        else some (specDesired buf c)) := by
  constructor
  · intro hup c' h
    have hlt : c.line - 1 < buf.num_lines := by omega
    have hc := line_chars_of_lt buf (c.line - 1) hlt
    rw [adjust_LineUp_eq buf c _ (by omega) hc] at h
    cases h
    rfl
  · intro hdown c' h
    have hc := line_chars_of_lt buf (c.line + 1) hdown
    rw [adjust_LineDown_eq buf c _ (by omega) hc] at h
    cases h
    rfl

theorem C2_saved_column_rule_witness :
    (⟨0, 1, none⟩ : Caret).saved_column =
      (if (⟨0, 1, none⟩ : Caret).column = specDesired demoBuf ⟨1, 1, none⟩
        then none else some (specDesired demoBuf ⟨1, 1, none⟩)) ∧
    (⟨2, 1, none⟩ : Caret).saved_column =
      (if (⟨2, 1, none⟩ : Caret).column = specDesired demoBuf ⟨1, 1, none⟩
        then none else some (specDesired demoBuf ⟨1, 1, none⟩)) := by
  have h := C2_saved_column_rule demoBuf ⟨1, 1, none⟩ 1
    (by decide) (by decide) (by decide)
  exact ⟨h.1 (by decide) ⟨0, 1, none⟩ (by decide),
    h.2 (by decide) ⟨2, 1, none⟩ (by decide)⟩

theorem commitCaret_cases (c : Caret) (t : Nat × Nat × Option Nat) :
    (commitCaret c t = ⟨t.1, t.2.1, t.2.2⟩ ∧
      (c.line ≠ t.1 ∨ c.column ≠ t.2.1)) ∨
    (commitCaret c t = c ∧ c.line = t.1 ∧ c.column = t.2.1) := by
  by_cases h : c.line ≠ t.1 ∨ c.column ≠ t.2.1
  · left
    constructor
    · show (if c.line ≠ t.1 ∨ c.column ≠ t.2.1 then
        (⟨t.1, t.2.1, t.2.2⟩ : Caret) else c) = _
      rw [if_pos h]
    · exact h
  · right
    push_neg at h
    refine ⟨?_, h.1, h.2⟩
    show (if c.line ≠ t.1 ∨ c.column ≠ t.2.1 then
      (⟨t.1, t.2.1, t.2.2⟩ : Caret) else c) = c
    rw [if_neg]
    push_neg
    exact h

/-- C3 counterexample: a caret at `(0, 0)` with a saved column, on a
one-line buffer.  `CharPrev` computes the unchanged position `(0, 0)`, so
the guarded write is skipped and the saved column survives, contradicting
the claim that any horizontal move leaves `saved_column = none`. -/
theorem C3_counterexample :
    adjust ⟨0, 0, some 5⟩ Adjustment.CharPrev ⟨[[Ch.glyph (some 1)]]⟩ =
      some ⟨0, 0, some 5⟩ ∧ some 5 ≠ (none : Option Nat) := by
  exact ⟨by decide, by decide⟩

/-- C3 amended: `CharPrev`, `CharNext` and `Set l col` clear `saved_column`
whenever the computed position differs from the current one; when the
computed position equals the current one the caret — `saved_column`
included — is left exactly as it was.  `Set` always lands on `(l, col)`
with no clamping. -/
theorem C3_amended (buf : Buffer) (c : Caret) :
    (∀ c', adjust c Adjustment.CharPrev buf = some c' →
      c'.line = c.line ∧
      (c'.column ≠ c.column → c'.saved_column = none) ∧
      (c'.column = c.column → c' = c)) ∧
    (∀ c', adjust c Adjustment.CharNext buf = some c' →
      c'.line = c.line ∧
      (c'.column ≠ c.column → c'.saved_column = none) ∧
      (c'.column = c.column → c' = c)) ∧
    (∀ l col c', adjust c (Adjustment.Set l col) buf = some c' →
      c'.line = l ∧ c'.column = col ∧
      ((c.line, c.column) ≠ (l, col) → c'.saved_column = none) ∧
      ((c.line, c.column) = (l, col) → c' = c)) := by
  refine ⟨?_, ?_, ?_⟩
  · intro c' h
    rw [adjust_CharPrev_eq] at h
    have hc' := Option.some.inj h
    rcases commitCaret_cases c (c.line, c.column - 1, none) with
      ⟨heq, hcond⟩ | ⟨heq, _, h2⟩
    · rw [heq] at hc'
      subst hc'
      refine ⟨rfl, fun _ => rfl, fun hcol => absurd hcol.symm ?_⟩
      rcases hcond with h1 | h1
      · exact absurd rfl h1
      · exact h1
    · rw [heq] at hc'
      subst hc'
      exact ⟨rfl, fun hne => absurd rfl hne, fun _ => rfl⟩
  · intro c' h
    cases hll : buf.line_length c.line with
    | none =>
        rw [adjust] at h
        simp only [adjustTriple, hll, Option.map_none'] at h
        exact Option.noConfusion h
    | some ll =>
        have hchars : ∃ chars, buf.line_chars c.line = some chars := by
          cases hcc : buf.lines.get? c.line with
          | none =>
              have hnone : buf.line_length c.line = none := by
                show (buf.lines.get? c.line).map List.length = none
                rw [hcc]
                rfl
              rw [hnone] at hll
              cases hll
          | some chars => exact ⟨chars, hcc⟩
        obtain ⟨chars, hcc⟩ := hchars
        rw [adjust_CharNext_eq buf c chars hcc] at h
        have hc' := Option.some.inj h
        rcases commitCaret_cases c
            (c.line, min (chars.length - 1) (c.column + 1), none) with
          ⟨heq, hcond⟩ | ⟨heq, _, h2⟩
        · rw [heq] at hc'
          subst hc'
          refine ⟨rfl, fun _ => rfl, fun hcol => absurd hcol.symm ?_⟩
          rcases hcond with h1 | h1
          · exact absurd rfl h1
          · exact h1
        · rw [heq] at hc'
          subst hc'
          exact ⟨rfl, fun hne => absurd rfl hne, fun _ => rfl⟩
  · intro l col c' h
    rw [adjust_Set_eq] at h
    have hc' := Option.some.inj h
    rcases commitCaret_cases c (l, col, none) with
      ⟨heq, hcond⟩ | ⟨heq, h1, h2⟩
    · rw [heq] at hc'
      subst hc'
      refine ⟨rfl, rfl, fun _ => rfl, fun heq2 => ?_⟩
      rw [Prod.mk.injEq] at heq2
      rcases hcond with hd | hd
      · exact absurd heq2.1 hd
      · exact absurd heq2.2 hd
    · rw [heq] at hc'
      subst hc'
      refine ⟨h1, h2, fun hne => absurd ?_ hne, fun _ => rfl⟩
      rw [h1, h2]

theorem C3_amended_witness :
    ((⟨0, 0, none⟩ : Caret).line = (⟨0, 1, some 7⟩ : Caret).line ∧
      ((⟨0, 0, none⟩ : Caret).column ≠ (⟨0, 1, some 7⟩ : Caret).column →
        (⟨0, 0, none⟩ : Caret).saved_column = none) ∧
      ((⟨0, 0, none⟩ : Caret).column = (⟨0, 1, some 7⟩ : Caret).column →
        (⟨0, 0, none⟩ : Caret) = ⟨0, 1, some 7⟩)) ∧
    ((⟨1, 2, none⟩ : Caret).line = 1 ∧ (⟨1, 2, none⟩ : Caret).column = 2 ∧
      (((0 : Nat), (1 : Nat)) ≠ ((1 : Nat), (2 : Nat)) →
        (⟨1, 2, none⟩ : Caret).saved_column = none) ∧
      (((0 : Nat), (1 : Nat)) = ((1 : Nat), (2 : Nat)) →
        (⟨1, 2, none⟩ : Caret) = ⟨0, 1, some 7⟩)) ∧
    ((⟨0, 1, some 7⟩ : Caret).line = 0 ∧
      (⟨0, 1, some 7⟩ : Caret).column = 1 ∧
      (((0 : Nat), (1 : Nat)) ≠ ((0 : Nat), (1 : Nat)) →
        (⟨0, 1, some 7⟩ : Caret).saved_column = none) ∧
      (((0 : Nat), (1 : Nat)) = ((0 : Nat), (1 : Nat)) →
        (⟨0, 1, some 7⟩ : Caret) = ⟨0, 1, some 7⟩)) := by
  have h := C3_amended demoBuf ⟨0, 1, some 7⟩
  exact ⟨h.1 ⟨0, 0, none⟩ (by decide),
    h.2.2 1 2 ⟨1, 2, none⟩ (by decide),
    h.2.2 0 1 ⟨0, 1, some 7⟩ (by decide)⟩

theorem commitCaret_line_column (c : Caret) (l col : Nat) (sv : Option Nat) :
    (commitCaret c (l, col, sv)).line = l ∧
    (commitCaret c (l, col, sv)).column = col := by
  rcases commitCaret_cases c (l, col, sv) with ⟨heq, _⟩ | ⟨heq, h1, h2⟩
  · rw [heq]
    exact ⟨rfl, rfl⟩
  · rw [heq]
    exact ⟨h1, h2⟩

theorem line_chars_of_length (buf : Buffer) (line ll : Nat)
    (hlen : buf.line_length line = some ll) :
    ∃ chars, buf.line_chars line = some chars ∧ chars.length = ll := by
  cases hcc : buf.lines.get? line with
  | none =>
      have hnone : buf.line_length line = none := by
        show (buf.lines.get? line).map List.length = none
        rw [hcc]
        rfl
      rw [hnone] at hlen
      cases hlen
  | some chars =>
      have hsome : buf.line_length line = some chars.length := by
        show (buf.lines.get? line).map List.length = some chars.length
        rw [hcc]
        rfl
      rw [hsome] at hlen
      exact ⟨chars, hcc, Option.some.inj hlen⟩

theorem vertical_none (c : Caret) (from_line to_line : Nat) (buf : Buffer)
    (h : vertical_caret_movement c from_line to_line buf = none) :
    buf.num_lines ≤ to_line := by
  by_contra hlt
  push_neg at hlt
  have hc := line_chars_of_lt buf to_line hlt
  rw [vertical_caret_movement, line_length_some buf to_line _ hc] at h
  simp only [Option.some_bind] at h
  rw [s2b_some buf to_line _ _ hc] at h
  simp at h

theorem mem_take_mono {x : Ch} (l : List Ch) (c₁ c₂ : Nat) (hc : c₁ ≤ c₂)
    (hx : x ∈ l.take c₁) : x ∈ l.take c₂ := by
  have heq : l.take c₁ = (l.take c₂).take c₁ := by
    rw [List.take_take, Nat.min_eq_left hc]
  rw [heq] at hx
  exact List.take_subset _ _ hx

/-- C4 counterexample: on destination line `[gch, wch, gch]` the
double-width character sits at buffer column 1, its two-cell span covering
screen columns 1 and 2.  Moving down from `(0, 2)` the clamped target
screen column is 2 — strictly inside the span — yet the caret lands at
buffer column 1, the wide character's own column, not at column 2
immediately after it as the claim asserts. -/
theorem C4_counterexample :
    specTarget ⟨[[gch, gch, gch], [gch, wch, gch]]⟩ ⟨0, 2, none⟩ 1 = 2 ∧
    sumW [gch, wch, gch] 1 < 2 ∧ 2 < sumW [gch, wch, gch] 1 + 2 ∧
    adjust ⟨0, 2, none⟩ Adjustment.LineDown
      ⟨[[gch, gch, gch], [gch, wch, gch]]⟩ = some ⟨1, 1, some 2⟩ ∧
    (1 : Nat) ≠ 1 + 1 :=
  ⟨by decide, by decide, by decide, by decide, by decide⟩

/-- C4 amended: when the clamped target screen column falls strictly inside
the two-cell span of a double-width character at buffer column `i` of the
destination line (with no line terminator among the first `i + 1`
characters), the vertical movement lands at buffer column `i` — the wide
character's own column, the start of its span — never strictly inside the
span and never after the character. -/
theorem C4_wide_char_landing (buf : Buffer) (c : Caret)
    (to_line i : Nat) (chars : List Ch)
    (hc : buf.line_chars to_line = some chars)
    (hi : i < chars.length)
    (hw : cellWidth (chars.get ⟨i, hi⟩) = 2)
    (hnl : ∀ ch ∈ chars.take (i + 1), ch.isNL = false)
    (hlo : sumW chars i < specTarget buf c to_line)
    (hhi : specTarget buf c to_line < sumW chars i + 2) :
    (vertical_caret_movement c c.line to_line buf).map
      (fun t => t.2.1) = some i := by
  rw [vertical_eq buf c to_line chars hc]
  show some (countFit (specTarget buf c to_line) 0
    (chars.filter (fun x => !x.isNL))) = some i
  rw [countFit_wide chars i 0 (specTarget buf c to_line) hi hw hnl
    (by omega) (by omega)]

theorem C4_wide_char_landing_witness :
    (vertical_caret_movement ⟨0, 2, none⟩ 0 1
      ⟨[[gch, gch, gch], [gch, wch, gch]]⟩).map
        (fun t => t.2.1) = some 1 :=
  C4_wide_char_landing ⟨[[gch, gch, gch], [gch, wch, gch]]⟩ ⟨0, 2, none⟩
    1 1 [gch, wch, gch] (by decide) (by decide) (by decide) (by decide)
    (by decide) (by decide)

/-- C5: for an existing line, the composition
`screen_to_buffer_column line (buffer_to_screen_column line c buf) buf` is
monotonically non-decreasing in the buffer column `c`, and equals `c`
whenever all characters up to `c` have width 1. -/
theorem C5_round_trip (buf : Buffer) (line : Nat) (chars : List Ch)
    (hc : buf.line_chars line = some chars) :
    (∀ c₁ c₂ b₁ b₂, c₁ ≤ c₂ →
      screen_to_buffer_column line
        (buffer_to_screen_column line c₁ buf) buf = some b₁ →
      screen_to_buffer_column line
        (buffer_to_screen_column line c₂ buf) buf = some b₂ →
      b₁ ≤ b₂) ∧
    (∀ c, c ≤ chars.length →
      (∀ ch ∈ chars.take (c + 1), ch.width = some 1) →
      screen_to_buffer_column line
        (buffer_to_screen_column line c buf) buf = some c) := by
  constructor
  · intro c₁ c₂ b₁ b₂ hcc h1 h2
    rw [b2s_some buf line c₁ chars hc, s2b_some buf line _ chars hc] at h1
    rw [b2s_some buf line c₂ chars hc, s2b_some buf line _ chars hc] at h2
    cases h1
    cases h2
    exact countFit_mono (sumW chars c₁) (sumW chars c₂)
      (sumW_mono c₁ c₂ hcc chars) _ 0
  · intro c hlen hw
    have hw' : ∀ ch ∈ chars.take c, ch.width = some 1 := fun ch hch =>
      hw ch (mem_take_mono chars c (c + 1) (Nat.le_succ c) hch)
    rw [b2s_some buf line c chars hc, s2b_some buf line _ chars hc,
      sumW_of_width1 chars c hlen hw']
    have hcf := countFit_of_width1 chars c 0 hlen hw
    rw [Nat.zero_add] at hcf
    rw [hcf]

theorem C5_round_trip_witness :
    ((1 : Nat) ≤ 2) ∧
    screen_to_buffer_column 2
      (buffer_to_screen_column 2 3 demoBuf) demoBuf = some 3 := by
  have h := C5_round_trip demoBuf 2 [gch, gch, gch] (by decide)
  exact ⟨h.1 1 2 1 2 (by decide) (by decide) (by decide),
    h.2 3 (by decide) (by decide)⟩

/-- Two-line buffer whose second line is blank (terminator only); the first
line holds three width-1 characters plus the terminator. -/
def blankBuf : Buffer := ⟨[[gch, gch, gch, Ch.newline], [Ch.newline]]⟩

/-- Nine-line buffer mirroring the spec's example: line 6 has 40 width-1
characters, line 7 has 15, line 8 has 21. -/
def hokeyBuf : Buffer :=
  ⟨[[], [], [], [], [], [], List.replicate 40 gch, List.replicate 15 gch,
    List.replicate 21 gch]⟩

/-- C6 counterexample: from the end-of-line position `(0, 3)` above a blank
line (line 0 shows three width-1 characters), `LineDown` does land at
`(1, 0)` with saved column 3 — the original screen column — but the
subsequent `LineUp` clamps screen column 3 to the reachable maximum 2 and
lands at buffer column 2, not the original column 3: the round trip of the
claim fails. -/
theorem C6_counterexample :
    adjust ⟨0, 3, none⟩ Adjustment.LineDown blankBuf =
      some ⟨1, 0, some 3⟩ ∧
    ((adjust ⟨0, 3, none⟩ Adjustment.LineDown blankBuf).bind
      (fun x => adjust x Adjustment.LineUp blankBuf)).map Caret.column =
      some 2 ∧
    (2 : Nat) ≠ 3 :=
  ⟨by decide, by decide, by decide⟩

/-- C6 amended: moving down from a position whose screen column `S` lies
beyond the blank line's extent (`S > 0`) always yields buffer column 0 with
saved column `S`.  The subsequent `LineUp` restores the original
`(line, column)` provided `S` is strictly below the original line's screen
length (no clamping on the way back) and `screen_to_buffer_column` inverts
`S` to the original buffer column — the two provisos the counterexample
shows to be necessary.  The spec's concrete line-6-column-30 scenario
(down twice through shorter lines, then up twice) holds as stated. -/
theorem C6_saved_column_round_trip (buf : Buffer) (L col : Nat)
    (bl : List Ch) (hb : buf.line_chars (L + 1) = some bl)
    (hblank : bl.filter (fun x => !x.isNL) = [])
    (hS : 0 < buffer_to_screen_column L col buf) :
    (adjust ⟨L, col, none⟩ Adjustment.LineDown buf =
      some ⟨L + 1, 0, some (buffer_to_screen_column L col buf)⟩) ∧
    (buffer_to_screen_column L col buf + 1 ≤ specScreenLength buf L →
      screen_to_buffer_column L
        (buffer_to_screen_column L col buf) buf = some col →
      ((adjust ⟨L, col, none⟩ Adjustment.LineDown buf).bind
        (fun x => adjust x Adjustment.LineUp buf)).map
          (fun x => (x.line, x.column)) = some (L, col)) ∧
    ((((adjust ⟨6, 30, none⟩ Adjustment.LineDown hokeyBuf).bind
      (fun x => adjust x Adjustment.LineDown hokeyBuf)).bind
      (fun x => adjust x Adjustment.LineUp hokeyBuf)).bind
      (fun x => adjust x Adjustment.LineUp hokeyBuf)) =
      some ⟨6, 30, none⟩ := by
  have hL1 : L + 1 < buf.num_lines := line_chars_lt buf (L + 1) bl hb
  have hL2 : L < buf.num_lines := by omega
  have hcL := line_chars_of_lt buf L hL2
  have hS' : specDesired buf ⟨L, col, none⟩ =
      buffer_to_screen_column L col buf := rfl
  have h0 : (⟨L, col, none⟩ : Caret).line ≠ buf.num_lines - 1 := by
    show L ≠ buf.num_lines - 1
    omega
  have hdown : adjust ⟨L, col, none⟩ Adjustment.LineDown buf =
      some ⟨L + 1, 0, some (buffer_to_screen_column L col buf)⟩ := by
    rw [adjust_LineDown_eq buf ⟨L, col, none⟩ bl h0 hb, hblank]
    simp only [countFit]
    rw [hS']
    rw [if_neg (by omega)]
  refine ⟨hdown, ?_, by decide⟩
  intro hreach hinv
  rw [hdown]
  simp only [Option.some_bind]
  have h0' : (⟨L + 1, 0,
      some (buffer_to_screen_column L col buf)⟩ : Caret).line ≠ 0 := by
    show L + 1 ≠ 0
    omega
  have hcL' : buf.line_chars ((⟨L + 1, 0,
      some (buffer_to_screen_column L col buf)⟩ : Caret).line - 1) =
      some (buf.lines.get ⟨L, hL2⟩) := by
    show buf.line_chars (L + 1 - 1) = some (buf.lines.get ⟨L, hL2⟩)
    rw [Nat.add_sub_cancel]
    exact hcL
  have hfield : countFit (specTarget buf ⟨L + 1, 0,
      some (buffer_to_screen_column L col buf)⟩ (L + 1 - 1)) 0
      ((buf.lines.get ⟨L, hL2⟩ : List Ch).filter (fun x => !x.isNL)) =
      col := by
    have h1 : specTarget buf ⟨L + 1, 0,
        some (buffer_to_screen_column L col buf)⟩ (L + 1 - 1) =
        buffer_to_screen_column L col buf := by
      show min (buffer_to_screen_column L col buf)
        (specScreenLength buf (L + 1 - 1) - 1) =
        buffer_to_screen_column L col buf
      rw [Nat.add_sub_cancel]
      exact Nat.min_eq_left (by omega)
    rw [h1]
    rw [s2b_some buf L (buffer_to_screen_column L col buf) _ hcL] at hinv
    exact Option.some.inj hinv
  rw [adjust_LineUp_eq buf ⟨L + 1, 0,
    some (buffer_to_screen_column L col buf)⟩ _ h0' hcL']
  simp only [Option.map_some']
  rw [Option.some_inj]
  show ((L + 1 - 1 : Nat), countFit (specTarget buf ⟨L + 1, 0,
    some (buffer_to_screen_column L col buf)⟩ (L + 1 - 1)) 0
    ((buf.lines.get ⟨L, hL2⟩ : List Ch).filter (fun x => !x.isNL))) =
    (L, col)
  rw [Prod.mk.injEq]
  exact ⟨by omega, hfield⟩

theorem C6_saved_column_round_trip_witness :
    (adjust ⟨0, 1, none⟩ Adjustment.LineDown blankBuf =
      some ⟨0 + 1, 0, some (buffer_to_screen_column 0 1 blankBuf)⟩) ∧
    (((adjust ⟨0, 1, none⟩ Adjustment.LineDown blankBuf).bind
      (fun x => adjust x Adjustment.LineUp blankBuf)).map
        (fun x => (x.line, x.column)) = some (0, 1)) ∧
    (adjust ⟨0, 3, none⟩ Adjustment.LineDown blankBuf =
      some ⟨0 + 1, 0, some (buffer_to_screen_column 0 3 blankBuf)⟩) ∧
    ((((adjust ⟨6, 30, none⟩ Adjustment.LineDown hokeyBuf).bind
      (fun x => adjust x Adjustment.LineDown hokeyBuf)).bind
      (fun x => adjust x Adjustment.LineUp hokeyBuf)).bind
      (fun x => adjust x Adjustment.LineUp hokeyBuf)) =
      some ⟨6, 30, none⟩ := by
  have h1 := C6_saved_column_round_trip blankBuf 0 1 [Ch.newline]
    (by decide) (by decide) (by decide)
  have h3 := C6_saved_column_round_trip blankBuf 0 3 [Ch.newline]
    (by decide) (by decide) (by decide)
  exact ⟨h1.1, h1.2.1 (by decide) (by decide), h3.1, h1.2.2⟩

/-- C7 counterexample: the caret at `(0, 1)` on the two-character line
`[gch, gch]` is a valid position on a non-empty line, yet `CharNext`
(capped at the final character, column 1, so a no-op) followed by
`CharPrev` lands at column 0, not the original column 1. -/
theorem C7_counterexample :
    ((adjust ⟨0, 1, none⟩ Adjustment.CharNext ⟨[[gch, gch]]⟩).bind
      (fun x => adjust x Adjustment.CharPrev ⟨[[gch, gch]]⟩)) =
      some ⟨0, 0, none⟩ ∧ (0 : Nat) ≠ 1 :=
  ⟨by decide, by decide⟩

/-- C7 amended: on a non-empty line, `CharNext` then `CharPrev` restores
the original column when the column is 0 or at least two short of the line
length (so `CharNext` is not capped); `CharPrev` then `CharNext` restores
it when `1 ≤ column ≤ line_length - 1` (the spec's column-0 exception,
plus the end-of-line position where `CharNext` is capped).  Both requests
always leave the line unchanged. -/
theorem C7_horizontal_round_trip (buf : Buffer) (c : Caret) (ll : Nat)
    (hline : c.line < buf.num_lines)
    (hlen : buf.line_length c.line = some ll)
    (hcol : c.column ≤ ll) (hne : 1 ≤ ll) :
    (c.column = 0 ∨ c.column + 2 ≤ ll →
      ((adjust c Adjustment.CharNext buf).bind
        (fun x => adjust x Adjustment.CharPrev buf)).map
          (fun x => (x.line, x.column)) = some (c.line, c.column)) ∧
    (1 ≤ c.column ∧ c.column + 1 ≤ ll →
      ((adjust c Adjustment.CharPrev buf).bind
        (fun x => adjust x Adjustment.CharNext buf)).map
          (fun x => (x.line, x.column)) = some (c.line, c.column)) ∧
    ((adjust c Adjustment.CharNext buf).map Caret.line = some c.line ∧
      (adjust c Adjustment.CharPrev buf).map Caret.line = some c.line) := by
  obtain ⟨chars, hcc, hlength⟩ := line_chars_of_length buf c.line ll hlen
  obtain ⟨hl1, hcol1⟩ := commitCaret_line_column c
    c.line (min (chars.length - 1) (c.column + 1)) none
  obtain ⟨hl1p, hcol1p⟩ := commitCaret_line_column c c.line (c.column - 1) none
  refine ⟨?_, ?_, ?_, ?_⟩
  · intro hA
    rw [adjust_CharNext_eq buf c chars hcc]
    simp only [Option.some_bind]
    rw [adjust_CharPrev_eq]
    simp only [Option.map_some']
    rw [Option.some_inj]
    obtain ⟨hl2, hcol2⟩ := commitCaret_line_column
      (commitCaret c (c.line, min (chars.length - 1) (c.column + 1), none))
      (commitCaret c (c.line, min (chars.length - 1) (c.column + 1), none)).line
      ((commitCaret c (c.line, min (chars.length - 1) (c.column + 1), none)).column - 1)
      none
    rw [Prod.mk.injEq]
    constructor
    · rw [hl2, hl1]
    · rw [hcol2, hcol1]
      omega
  · intro hB
    rw [adjust_CharPrev_eq]
    simp only [Option.some_bind]
    have hcc2 : buf.line_chars
        (commitCaret c (c.line, c.column - 1, none)).line = some chars := by
      rw [hl1p]
      exact hcc
    rw [adjust_CharNext_eq buf (commitCaret c (c.line, c.column - 1, none))
      chars hcc2]
    simp only [Option.map_some']
    rw [Option.some_inj]
    obtain ⟨hl2, hcol2⟩ := commitCaret_line_column
      (commitCaret c (c.line, c.column - 1, none))
      (commitCaret c (c.line, c.column - 1, none)).line
      (min (chars.length - 1)
        ((commitCaret c (c.line, c.column - 1, none)).column + 1))
      none
    rw [Prod.mk.injEq]
    constructor
    · rw [hl2, hl1p]
    · rw [hcol2, hcol1p]
      omega
  · rw [adjust_CharNext_eq buf c chars hcc]
    simp only [Option.map_some']
    rw [Option.some_inj]
    exact hl1
  · rw [adjust_CharPrev_eq]
    simp only [Option.map_some']
    rw [Option.some_inj]
    exact hl1p

theorem C7_horizontal_round_trip_witness :
    (((adjust ⟨2, 1, none⟩ Adjustment.CharNext demoBuf).bind
      (fun x => adjust x Adjustment.CharPrev demoBuf)).map
        (fun x => (x.line, x.column)) = some (2, 1)) ∧
    (((adjust ⟨2, 1, none⟩ Adjustment.CharPrev demoBuf).bind
      (fun x => adjust x Adjustment.CharNext demoBuf)).map
        (fun x => (x.line, x.column)) = some (2, 1)) ∧
    ((adjust ⟨2, 1, none⟩ Adjustment.CharNext demoBuf).map Caret.line =
      some 2 ∧
    (adjust ⟨2, 1, none⟩ Adjustment.CharPrev demoBuf).map Caret.line =
      some 2) := by
  have h := C7_horizontal_round_trip demoBuf ⟨2, 1, none⟩ 3
    (by decide) (by decide) (by decide) (by decide)
  exact ⟨h.1 (by decide), h.2.1 (by decide), h.2.2⟩

/-- C8: the conversion functions are total over every line index and
distinguish absence from emptiness: for a line index with no corresponding
line, `buffer_to_screen_column` returns 0 while `screen_to_buffer_column`
returns `none` (distinct from `some 0`); for every existing line index
`screen_to_buffer_column` returns `some` value; neither function fails. -/
theorem C8_conversion_totality (buf : Buffer) (line sc col : Nat) :
    (buf.num_lines ≤ line →
      buffer_to_screen_column line col buf = 0 ∧
      screen_to_buffer_column line sc buf = none) ∧
    (line < buf.num_lines →
      ∃ v, screen_to_buffer_column line sc buf = some v) := by
  constructor
  · intro h
    have hc := line_chars_none buf line h
    exact ⟨b2s_none buf line col hc, s2b_none buf line sc hc⟩
  · intro h
    exact ⟨_, s2b_some buf line sc _ (line_chars_of_lt buf line h)⟩

theorem C8_conversion_totality_witness :
    (buffer_to_screen_column 5 0 demoBuf = 0 ∧
      screen_to_buffer_column 5 7 demoBuf = none) ∧
    (∃ v, screen_to_buffer_column 0 7 demoBuf = some v) :=
  ⟨(C8_conversion_totality demoBuf 5 7 0).1 (by decide),
    (C8_conversion_totality demoBuf 0 7 0).2 (by decide)⟩

theorem num_lines_le_of_line_length_none (buf : Buffer) (line : Nat)
    (h : buf.line_length line = none) : buf.num_lines ≤ line := by
  cases hg : buf.lines.get? line with
  | none => exact List.get?_eq_none.mp hg
  | some x =>
      have hx : buf.line_length line = some x.length := by
        show (buf.lines.get? line).map List.length = some x.length
        rw [hg]
        rfl
      rw [hx] at h
      cases h

/-- C9: `adjust` is atomic.  A successful run yields either the caret
exactly as it was, or a caret whose three fields all come from the single
computed triple; a failed run (`none`, modelling the panicking `unwrap` on
a buffer query) occurs only when a line the operation requires is missing,
and produces no caret at all — there is no partial-failure state. -/
theorem C9_adjust_atomicity (c : Caret) (a : Adjustment) (buf : Buffer) :
    (∀ c', adjust c a buf = some c' →
      c' = c ∨ ∃ t, adjustTriple c a buf = some t ∧
        c' = ⟨t.1, t.2.1, t.2.2⟩) ∧
    (adjust c a buf = none →
      (a = Adjustment.CharNext ∧ buf.num_lines ≤ c.line) ∨
      (a = Adjustment.LineUp ∧ c.line ≠ 0 ∧
        buf.num_lines ≤ c.line - 1) ∨
      (a = Adjustment.LineDown ∧ c.line ≠ buf.num_lines - 1 ∧
        buf.num_lines ≤ c.line + 1)) := by
  constructor
  · intro c' h
    rw [adjust, Option.map_eq_some'] at h
    obtain ⟨t, ht, hcommit⟩ := h
    rcases commitCaret_cases c t with ⟨heq, _⟩ | ⟨heq, _, _⟩
    · right
      refine ⟨t, ht, ?_⟩
      rw [← hcommit, heq]
    · left
      rw [← hcommit, heq]
  · intro h
    rw [adjust, Option.map_eq_none'] at h
    cases a with
    | CharPrev => simp [adjustTriple] at h
    | Set l col2 => simp [adjustTriple] at h
    | CharNext =>
        left
        refine ⟨rfl, ?_⟩
        simp only [adjustTriple, Option.map_eq_none'] at h
        exact num_lines_le_of_line_length_none buf c.line h
    | LineUp =>
        right
        left
        simp only [adjustTriple] at h
        by_cases h0 : c.line = 0
        · rw [if_pos h0] at h
          cases h
        · rw [if_neg h0] at h
          exact ⟨rfl, h0, vertical_none c c.line (c.line - 1) buf h⟩
    | LineDown =>
        right
        right
        simp only [adjustTriple] at h
        by_cases h0 : c.line = buf.num_lines - 1
        · rw [if_pos h0] at h
          cases h
        · rw [if_neg h0] at h
          exact ⟨rfl, h0, vertical_none c c.line (c.line + 1) buf h⟩

theorem C9_adjust_atomicity_witness :
    ((⟨1, 2, none⟩ : Caret) = ⟨0, 0, none⟩ ∨
      ∃ t, adjustTriple ⟨0, 0, none⟩ (Adjustment.Set 1 2) ⟨[[]]⟩ = some t ∧
        (⟨1, 2, none⟩ : Caret) = ⟨t.1, t.2.1, t.2.2⟩) ∧
    ((Adjustment.CharNext = Adjustment.CharNext ∧
        Buffer.num_lines ⟨[[]]⟩ ≤ 5) ∨
      (Adjustment.CharNext = Adjustment.LineUp ∧ (5 : Nat) ≠ 0 ∧
        Buffer.num_lines ⟨[[]]⟩ ≤ 5 - 1) ∨
      (Adjustment.CharNext = Adjustment.LineDown ∧
        (5 : Nat) ≠ Buffer.num_lines ⟨[[]]⟩ - 1 ∧
        Buffer.num_lines ⟨[[]]⟩ ≤ 5 + 1)) :=
  ⟨(C9_adjust_atomicity ⟨0, 0, none⟩ (Adjustment.Set 1 2) ⟨[[]]⟩).1
      ⟨1, 2, none⟩ (by decide),
    (C9_adjust_atomicity ⟨5, 0, none⟩ Adjustment.CharNext ⟨[[]]⟩).2
      (by decide)⟩

/-- C10: invariant preservation.  If `line < num_lines` and
`column ≤ line_length line` hold before the call, any request other than
`Set` re-establishes them: `CharPrev`/`CharNext` keep the line and land in
`[0, max (0, line_length - 1)]`; `LineUp`/`LineDown` keep the line in
bounds; and a column produced by an actual vertical movement never exceeds
the destination line's count of non-terminator characters. -/
theorem C10_invariant_preservation (buf : Buffer) (c : Caret)
    (a : Adjustment) (ll : Nat)
    (hline : c.line < buf.num_lines)
    (hlen : buf.line_length c.line = some ll) (hcol : c.column ≤ ll)
    (hnotset : ∀ l col2, a ≠ Adjustment.Set l col2) :
    ∃ c', adjust c a buf = some c' ∧
      c'.line < buf.num_lines ∧
      (∃ ll2, buf.line_length c'.line = some ll2 ∧ c'.column ≤ ll2) ∧
      ((a = Adjustment.CharPrev ∨ a = Adjustment.CharNext) →
        c'.line = c.line ∧ c'.column ≤ ll - 1) ∧
      (((a = Adjustment.LineUp ∧ c.line ≠ 0) ∨
        (a = Adjustment.LineDown ∧ c.line ≠ buf.num_lines - 1)) →
        ∀ chars2, buf.line_chars c'.line = some chars2 →
          c'.column ≤ (chars2.filter (fun x => !x.isNL)).length) := by
  cases a with
  | Set l col2 => exact absurd rfl (hnotset l col2)
  | CharPrev =>
      obtain ⟨hl, hcolv⟩ := commitCaret_line_column c c.line (c.column - 1) none
      refine ⟨_, adjust_CharPrev_eq buf c, ?_, ?_, ?_, ?_⟩
      · rw [hl]
        exact hline
      · exact ⟨ll, by rw [hl]; exact hlen, by rw [hcolv]; omega⟩
      · intro _
        exact ⟨hl, by rw [hcolv]; omega⟩
      · intro hv
        rcases hv with ⟨h', _⟩ | ⟨h', _⟩ <;> cases h'
  | CharNext =>
      obtain ⟨chars, hcc, hlength⟩ := line_chars_of_length buf c.line ll hlen
      obtain ⟨hl, hcolv⟩ := commitCaret_line_column c c.line
        (min (chars.length - 1) (c.column + 1)) none
      refine ⟨_, adjust_CharNext_eq buf c chars hcc, ?_, ?_, ?_, ?_⟩
      · rw [hl]
        exact hline
      · exact ⟨ll, by rw [hl]; exact hlen, by rw [hcolv]; omega⟩
      · intro _
        exact ⟨hl, by rw [hcolv]; omega⟩
      · intro hv
        rcases hv with ⟨h', _⟩ | ⟨h', _⟩ <;> cases h'
  | LineUp =>
      by_cases h0 : c.line = 0
      · refine ⟨c, adjust_LineUp_zero buf c h0, hline,
          ⟨ll, hlen, hcol⟩, ?_, ?_⟩
        · intro hv
          rcases hv with h' | h' <;> cases h'
        · intro hv
          rcases hv with ⟨_, h2⟩ | ⟨h', _⟩
          · exact absurd h0 h2
          · cases h'
      · have hlt : c.line - 1 < buf.num_lines := by omega
        have hc := line_chars_of_lt buf (c.line - 1) hlt
        refine ⟨_, adjust_LineUp_eq buf c _ h0 hc, ?_, ?_, ?_, ?_⟩
        · show c.line - 1 < buf.num_lines
          omega
        · refine ⟨(buf.lines.get ⟨c.line - 1, hlt⟩).length, ?_, ?_⟩
          · exact line_length_some buf (c.line - 1) _ hc
          · show countFit _ 0 ((buf.lines.get ⟨c.line - 1, hlt⟩).filter
              (fun x => !x.isNL)) ≤ (buf.lines.get ⟨c.line - 1, hlt⟩).length
            exact Nat.le_trans (countFit_le_length _ _ 0)
              (List.length_filter_le _ _)
        · intro hv
          rcases hv with h' | h' <;> cases h'
        · intro _ chars2 hchars2
          have hchars2' : buf.line_chars (c.line - 1) = some chars2 := hchars2
          rw [hc] at hchars2'
          have hsame := Option.some.inj hchars2'
          subst hsame
          show countFit _ 0 ((buf.lines.get ⟨c.line - 1, hlt⟩).filter
            (fun x => !x.isNL)) ≤
            ((buf.lines.get ⟨c.line - 1, hlt⟩).filter
              (fun x => !x.isNL)).length
          exact countFit_le_length _ _ 0
  | LineDown =>
      by_cases h0 : c.line = buf.num_lines - 1
      · refine ⟨c, adjust_LineDown_last buf c h0, hline,
          ⟨ll, hlen, hcol⟩, ?_, ?_⟩
        · intro hv
          rcases hv with h' | h' <;> cases h'
        · intro hv
          rcases hv with ⟨h', _⟩ | ⟨_, h2⟩
          · cases h'
          · exact absurd h0 h2
      · have hlt : c.line + 1 < buf.num_lines := by omega
        have hc := line_chars_of_lt buf (c.line + 1) hlt
        refine ⟨_, adjust_LineDown_eq buf c _ h0 hc, ?_, ?_, ?_, ?_⟩
        · show c.line + 1 < buf.num_lines
          omega
        · refine ⟨(buf.lines.get ⟨c.line + 1, hlt⟩).length, ?_, ?_⟩
          · exact line_length_some buf (c.line + 1) _ hc
          · show countFit _ 0 ((buf.lines.get ⟨c.line + 1, hlt⟩).filter
              (fun x => !x.isNL)) ≤ (buf.lines.get ⟨c.line + 1, hlt⟩).length
            exact Nat.le_trans (countFit_le_length _ _ 0)
              (List.length_filter_le _ _)
        · intro hv
          rcases hv with h' | h' <;> cases h'
        · intro _ chars2 hchars2
          have hchars2' : buf.line_chars (c.line + 1) = some chars2 := hchars2
          rw [hc] at hchars2'
          have hsame := Option.some.inj hchars2'
          subst hsame
          show countFit _ 0 ((buf.lines.get ⟨c.line + 1, hlt⟩).filter
            (fun x => !x.isNL)) ≤
            ((buf.lines.get ⟨c.line + 1, hlt⟩).filter
              (fun x => !x.isNL)).length
          exact countFit_le_length _ _ 0

theorem C10_invariant_preservation_witness :
    ∃ c', adjust ⟨0, 1, none⟩ Adjustment.LineDown demoBuf = some c' ∧
      c'.line < demoBuf.num_lines ∧
      (∃ ll2, demoBuf.line_length c'.line = some ll2 ∧ c'.column ≤ ll2) ∧
      ((Adjustment.LineDown = Adjustment.CharPrev ∨
        Adjustment.LineDown = Adjustment.CharNext) →
        c'.line = (⟨0, 1, none⟩ : Caret).line ∧ c'.column ≤ 2 - 1) ∧
      (((Adjustment.LineDown = Adjustment.LineUp ∧
          (⟨0, 1, none⟩ : Caret).line ≠ 0) ∨
        (Adjustment.LineDown = Adjustment.LineDown ∧
          (⟨0, 1, none⟩ : Caret).line ≠ demoBuf.num_lines - 1)) →
        ∀ chars2, demoBuf.line_chars c'.line = some chars2 →
          c'.column ≤ (chars2.filter (fun x => !x.isNL)).length) :=
  C10_invariant_preservation demoBuf ⟨0, 1, none⟩ Adjustment.LineDown 2
    (by decide) (by decide) (by decide)
    (fun l col2 h => Adjustment.noConfusion h)
